import Mathlib

/-!
Verification of the DSGoPipeline Airflow/MLflow DAG.

Shallow embedding of `src/4_airflow/mlflow_dag.py`.  Metric values carried by
the tracking service are modelled as rationals; the one irrational operation
in the code (`np.sqrt` inside `eval_metrics`) is modelled with `Real.sqrt`.
External collaborators (the MLflow tracking store and model registry) are
modelled as explicit parameters: a lookup function for `client.get_run` and a
version-assigning registry for `mlflow.register_model`.  A step that raises an
unhandled Python exception is modelled as returning `none`: in that case the
step performs no `xcom_push`.
-/

/-- A tracked MLflow run as seen by `get_best_model`: its `info.run_id` and its
`data.metrics` dictionary (metric name to value). -/
structure MlRun where
  run_id : String
  params : List (String × ℕ)
  metrics : List (String × ℚ)
deriving DecidableEq, Repr

/-- The maximum of a list of rationals, as scanned by `np.argmax`
(left fold with `max`); only meaningful on non-empty lists. -/
def listMax : List ℚ → ℚ
  | [] => 0
  | [x] => x
  | x :: y :: ys => max x (listMax (y :: ys))

/-- Embeds `np.argmax`: the index of the FIRST occurrence of the maximum value.
`np.argmax` raises on an empty array; callers guard that case, and the
value returned here for `[]` is never used. -/
def npArgmax : List ℚ → ℕ
  | [] => 0
  | [_] => 0
  | x :: y :: ys => if listMax (y :: ys) ≤ x then 0 else npArgmax (y :: ys) + 1

/-- Embeds `runs = [client.get_run(run_id) for run_id in ids]`: each lookup either
returns the run or raises (a missing id aborts the whole comprehension). -/
def getRuns (store : String → Option MlRun) : List String → Option (List MlRun)
  | [] => some []
  | id :: ids =>
    match store id, getRuns store ids with
    | some r, some rs => some (r :: rs)
    | _, _ => none

/-- Embeds `run_r2 = [run.data.metrics["r2"] for run in runs]`: a run without an
`"r2"` metric raises `KeyError` and aborts the comprehension. -/
def getR2s : List MlRun → Option (List ℚ)
  | [] => some []
  | r :: rs =>
    match r.metrics.lookup "r2", getR2s rs with
    | some q, some qs => some (q :: qs)
    | _, _ => none

/-- The flattening list comprehension at the top of `get_best_model`:
`ids = [r for ids in xcom_pull(...) for r in ids]`. -/
def flattenIds (pulled : List (List String)) : List String :=
  pulled.flatten

/-- Embeds `get_best_model`: flatten the pulled run-id lists, fetch every run,
read every run's `"r2"` metric, pick `runs[np.argmax(run_r2)]` and publish
its `run_id`.  `none` models an unhandled exception (missing run, missing
metric, or `np.argmax` on an empty list): nothing is pushed. -/
def get_best_model (store : String → Option MlRun) (pulled : List (List String)) :
    Option String :=
  match getRuns store (flattenIds pulled) with
  | none => none
  | some runs =>
    match getR2s runs with
    | none => none
    | some run_r2 =>
      match runs.getD (npArgmax run_r2) ⟨"", [], []⟩, runs with
      | _, [] => none
      | best_run, _ :: _ => some best_run.run_id

/-- The `"r2"` metric of the run stored under `id`, when both exist. -/
def r2Of (store : String → Option MlRun) (id : String) : Option ℚ :=
  match store id with
  | none => none
  | some r => r.metrics.lookup "r2"

/-! ## Helper lemmas about `listMax`, `npArgmax` and the lookup comprehensions -/

lemma le_listMax {l : List ℚ} {x : ℚ} (hx : x ∈ l) : x ≤ listMax l := by
  induction l with
  | nil => cases hx
  | cons a t ih =>
    cases t with
    | nil =>
      rcases List.mem_cons.mp hx with h | h
      · simp [listMax, h]
      · cases h
    | cons b u =>
      rcases List.mem_cons.mp hx with h | h
      · subst h; exact le_max_left _ _
      · exact le_trans (ih h) (le_max_right _ _)

lemma npArgmax_lt_length {l : List ℚ} (h : l ≠ []) : npArgmax l < l.length := by
  induction l with
  | nil => exact absurd rfl h
  | cons a t ih =>
    cases t with
    | nil => simp [npArgmax]
    | cons b u =>
      by_cases hc : listMax (b :: u) ≤ a
      · simp [npArgmax, hc]
      · simp only [npArgmax, if_neg hc, List.length_cons]
        have h2 := ih (by simp)
        simp only [List.length_cons] at h2
        omega

lemma getD_npArgmax {l : List ℚ} (h : l ≠ []) : l.getD (npArgmax l) 0 = listMax l := by
  induction l with
  | nil => exact absurd rfl h
  | cons a t ih =>
    cases t with
    | nil => simp [npArgmax, listMax]
    | cons b u =>
      by_cases hc : listMax (b :: u) ≤ a
      · simp [npArgmax, hc, listMax, max_eq_left hc]
      · have hx : a ≤ listMax (b :: u) := le_of_not_le hc
        simp only [npArgmax, if_neg hc, listMax, List.getD_cons_succ]
        rw [ih (by simp), max_eq_right hx]

lemma getD_lt_listMax_of_lt_npArgmax {l : List ℚ} {j : ℕ} (hj : j < npArgmax l) :
    l.getD j 0 < listMax l := by
  induction l generalizing j with
  | nil => simp [npArgmax] at hj
  | cons a t ih =>
    cases t with
    | nil => simp [npArgmax] at hj
    | cons b u =>
      by_cases hc : listMax (b :: u) ≤ a
      · simp [npArgmax, hc] at hj
      · have hx : a < listMax (b :: u) := lt_of_not_le hc
        simp only [npArgmax, if_neg hc] at hj
        rw [show listMax (a :: b :: u) = max a (listMax (b :: u)) from rfl,
          max_eq_right (le_of_lt hx)]
        cases j with
        | zero => simpa using hx
        | succ k =>
          have hk : k < npArgmax (b :: u) := by omega
          simpa using ih hk

lemma getD_mem {α : Type} (d : α) {l : List α} {j : ℕ} (h : j < l.length) :
    l.getD j d ∈ l := by
  induction l generalizing j with
  | nil => simp at h
  | cons a t ih =>
    cases j with
    | zero => simp
    | succ k =>
      simp only [List.getD_cons_succ]
      exact List.mem_cons_of_mem _ (ih (by simpa using h))

lemma mem_getD {α : Type} (d : α) {l : List α} {a : α} (h : a ∈ l) :
    ∃ j, j < l.length ∧ l.getD j d = a := by
  induction l with
  | nil => cases h
  | cons x t ih =>
    rcases List.mem_cons.mp h with h1 | h1
    · exact ⟨0, by simp, by simp [h1.symm]⟩
    · obtain ⟨j, hj, hja⟩ := ih h1
      exact ⟨j + 1, by simp; omega, by simpa using hja⟩

lemma getRuns_length {store : String → Option MlRun} {ids : List String}
    {runs : List MlRun} (h : getRuns store ids = some runs) :
    runs.length = ids.length := by
  induction ids generalizing runs with
  | nil => simp [getRuns] at h; simp [h.symm]
  | cons id t ih =>
    simp only [getRuns] at h
    cases hs : store id with
    | none => rw [hs] at h; cases h
    | some r =>
      rw [hs] at h
      cases hr : getRuns store t with
      | none => rw [hr] at h; cases h
      | some rs =>
        rw [hr] at h
        cases h
        simp [ih hr]

lemma getRuns_getD {store : String → Option MlRun} {ids : List String}
    {runs : List MlRun} (h : getRuns store ids = some runs) :
    ∀ j, j < ids.length →
      store (ids.getD j "") = some (runs.getD j ⟨"", [], []⟩) := by
  induction ids generalizing runs with
  | nil => intro j hj; simp at hj
  | cons id t ih =>
    intro j hj
    simp only [getRuns] at h
    cases hs : store id with
    | none => rw [hs] at h; cases h
    | some r =>
      rw [hs] at h
      cases hr : getRuns store t with
      | none => rw [hr] at h; cases h
      | some rs =>
        rw [hr] at h
        cases h
        cases j with
        | zero => simpa using hs
        | succ k => simpa using ih hr k (by simpa using hj)

lemma getRuns_none_of_missing {store : String → Option MlRun} {ids : List String}
    {id : String} (hmem : id ∈ ids) (hnone : store id = none) :
    getRuns store ids = none := by
  induction ids with
  | nil => cases hmem
  | cons a t ih =>
    rcases List.mem_cons.mp hmem with h1 | h1
    · subst h1; simp [getRuns, hnone]
    · simp only [getRuns, ih h1]
      cases store a <;> rfl

lemma getR2s_length {runs : List MlRun} {r2s : List ℚ}
    (h : getR2s runs = some r2s) : r2s.length = runs.length := by
  induction runs generalizing r2s with
  | nil => simp [getR2s] at h; simp [h.symm]
  | cons r t ih =>
    simp only [getR2s] at h
    cases hq : r.metrics.lookup "r2" with
    | none => rw [hq] at h; cases h
    | some q =>
      rw [hq] at h
      cases hr : getR2s t with
      | none => rw [hr] at h; cases h
      | some qs =>
        rw [hr] at h
        cases h
        simp [ih hr]

lemma getR2s_getD {runs : List MlRun} {r2s : List ℚ}
    (h : getR2s runs = some r2s) :
    ∀ j, j < runs.length →
      (runs.getD j ⟨"", [], []⟩).metrics.lookup "r2" = some (r2s.getD j 0) := by
  induction runs generalizing r2s with
  | nil => intro j hj; simp at hj
  | cons r t ih =>
    intro j hj
    simp only [getR2s] at h
    cases hq : r.metrics.lookup "r2" with
    | none => rw [hq] at h; cases h
    | some q =>
      rw [hq] at h
      cases hr : getR2s t with
      | none => rw [hr] at h; cases h
      | some qs =>
        rw [hr] at h
        cases h
        cases j with
        | zero => simpa using hq
        | succ k => simpa using ih hr k (by simpa using hj)

/-- Master specification of `get_best_model`: on success the published id is a
candidate, it carries an `"r2"` metric, and that value dominates the `"r2"`
of every candidate. -/
lemma get_best_model_spec {store : String → Option MlRun}
    {pulled : List (List String)} {b : String}
    (hstore : ∀ id r, store id = some r → r.run_id = id)
    (hres : get_best_model store pulled = some b) :
    b ∈ flattenIds pulled ∧ ∃ r2b, r2Of store b = some r2b ∧
      ∀ id ∈ flattenIds pulled, ∀ q, r2Of store id = some q → q ≤ r2b := by
  unfold get_best_model at hres
  cases hruns : getRuns store (flattenIds pulled) with
  | none => rw [hruns] at hres; cases hres
  | some runs =>
    rw [hruns] at hres
    dsimp only at hres
    cases hr2s : getR2s runs with
    | none => rw [hr2s] at hres; cases hres
    | some r2s =>
      rw [hr2s] at hres
      dsimp only at hres
      cases hrc : runs with
      | nil => rw [hrc] at hres; cases hres
      | cons r0 rt =>
        rw [hrc] at hres
        dsimp only at hres
        rw [← hrc] at hres
        simp only [Option.some.injEq] at hres
        have hlen1 : runs.length = (flattenIds pulled).length := getRuns_length hruns
        have hlen2 : r2s.length = runs.length := getR2s_length hr2s
        have hrne : runs ≠ [] := by rw [hrc]; simp
        have hr2ne : r2s ≠ [] := by
          intro hnil
          rw [hnil] at hlen2
          rw [hrc] at hlen2
          simp at hlen2
        have hi : npArgmax r2s < r2s.length := npArgmax_lt_length hr2ne
        set i := npArgmax r2s with hidef
        have hilen : i < runs.length := by omega
        have hiids : i < (flattenIds pulled).length := by omega
        have hstorei : store ((flattenIds pulled).getD i "") =
            some (runs.getD i ⟨"", [], []⟩) := getRuns_getD hruns i hiids
        have hrid : (runs.getD i ⟨"", [], []⟩).run_id = (flattenIds pulled).getD i "" :=
          hstore _ _ hstorei
        have hb : b = (flattenIds pulled).getD i "" := by
          rw [← hres, hrc]
          rw [hrc] at hrid
          exact hrid
        constructor
        · rw [hb]; exact getD_mem _ hiids
        · refine ⟨r2s.getD i 0, ?_, ?_⟩
          · rw [hb]
            unfold r2Of
            rw [hstorei]
            exact getR2s_getD hr2s i hilen
          · intro id hmem q hq
            obtain ⟨j, hj, hjid⟩ := mem_getD "" hmem
            have hstorej : store ((flattenIds pulled).getD j "") =
                some (runs.getD j ⟨"", [], []⟩) := getRuns_getD hruns j hj
            have hqj : (runs.getD j ⟨"", [], []⟩).metrics.lookup "r2" =
                some (r2s.getD j 0) := getR2s_getD hr2s j (by omega)
            have : r2Of store id = some (r2s.getD j 0) := by
              unfold r2Of
              rw [← hjid, hstorej]
              exact hqj
            rw [this] at hq
            cases hq
            have hmax : r2s.getD j 0 ≤ listMax r2s :=
              le_listMax (getD_mem 0 (by omega))
            rw [getD_npArgmax hr2ne]
            exact hmax

/-- Destructuring `get_best_model`: a successful result comes from fetched
runs and r2 values, and is the `run_id` of the run at index `np.argmax`. -/
lemma get_best_model_eq {store : String → Option MlRun}
    {pulled : List (List String)} {b : String}
    (hres : get_best_model store pulled = some b) :
    ∃ runs r2s, getRuns store (flattenIds pulled) = some runs ∧
      getR2s runs = some r2s ∧ runs ≠ [] ∧
      b = (runs.getD (npArgmax r2s) ⟨"", [], []⟩).run_id := by
  unfold get_best_model at hres
  cases hruns : getRuns store (flattenIds pulled) with
  | none => rw [hruns] at hres; cases hres
  | some runs =>
    rw [hruns] at hres
    dsimp only at hres
    cases hr2s : getR2s runs with
    | none => rw [hr2s] at hres; cases hres
    | some r2s =>
      rw [hr2s] at hres
      dsimp only at hres
      cases hrc : runs with
      | nil => rw [hrc] at hres; cases hres
      | cons r0 rt =>
        rw [hrc] at hres
        dsimp only at hres
        rw [← hrc] at hres
        simp only [Option.some.injEq] at hres
        refine ⟨r0 :: rt, r2s, rfl, ?_, by simp, ?_⟩
        · rw [← hrc]; exact hr2s
        · rw [← hrc]; exact hres.symm

/-! ## The trainer tasks `make_lr` and `make_rf` -/

/-- The final `xcom_push` of `make_lr`:
`xcom_push(key="run_id", value=[run.info.run_id])`. -/
def make_lr_push (run_id : String) : List String :=
  [run_id]

/-- The outer hyperparameter loop of `make_rf`: `for n_estimators in [4, 25]`. -/
def n_estimators_grid : List ℕ := [4, 25]

/-- The inner hyperparameter loop of `make_rf`: `for max_depth in [4, 10]`. -/
def max_depth_grid : List ℕ := [4, 10]

/-- The loop of `make_rf`.  `freshId k` is the run id the tracking service
assigns to the k-th started run; `tryTrain n d` models fitting, predicting and
evaluating one `RandomForestRegressor(n_estimators=n, max_depth=d)`, which
either yields the metric triple `(rmse, mae, r2)` or raises (`none`).
Each successful iteration logs both hyperparameters as params and the three
metrics, and appends its run id; a raise aborts the whole task. -/
def make_rf_runs (freshId : ℕ → String) (tryTrain : ℕ → ℕ → Option (ℚ × ℚ × ℚ)) :
    Option (List MlRun) :=
  n_estimators_grid.foldl (fun acc n =>
    max_depth_grid.foldl (fun acc2 d =>
      match acc2 with
      | none => none
      | some rs =>
        match tryTrain n d with
        | none => none
        | some m =>
          some (rs ++ [⟨freshId rs.length,
                        [("n_estimators", n), ("max_depth", d)],
                        [("rmse", m.1), ("mae", m.2.1), ("r2", m.2.2)]⟩])) acc)
    (some [])

/-- The final `xcom_push(key="run_id", value=runs)` of `make_rf`: it happens
only after the whole loop finished, so a raise inside any iteration means no
message at all; on success the pushed value is the list of all run ids in
creation order. -/
def make_rf_push (freshId : ℕ → String) (tryTrain : ℕ → ℕ → Option (ℚ × ℚ × ℚ)) :
    Option (List String) :=
  (make_rf_runs freshId tryTrain).map (fun rs => rs.map (fun r => r.run_id))

/-! ## The promoter task `register_best_model` and the model registry -/

/-- A version of a registered model in the external MLflow model registry
(spec data model: name, monotonic version, stage, plus the source artifact
URI it was registered from). -/
structure ModelVersion where
  name : String
  version : ℕ
  stage : String
  source : String
deriving DecidableEq, Repr

/-- Modelled from the spec: the registry assigns "a new or incremented
version number" per model name; versions of a name are counted up from 1. -/
def nextVersion (st : List ModelVersion) (name : String) : ℕ :=
  (st.filter (fun v => v.name = name)).length + 1

/-- Modelled from the spec: `mlflow.register_model(model_uri, name)` creates a
new version of `name` (initial stage `"None"`) pointing at `model_uri`. -/
def registerModel (st : List ModelVersion) (model_uri : String) (name : String) :
    List ModelVersion :=
  st ++ [⟨name, nextVersion st name, "None", model_uri⟩]

/-- Modelled from the spec: `client.transition_model_version_stage` overwrites
the stage of the named version. -/
def transitionStage (st : List ModelVersion) (name : String) (version : ℕ)
    (stage : String) : List ModelVersion :=
  st.map (fun v =>
    if v.name = name ∧ v.version = version then ⟨v.name, v.version, stage, v.source⟩ else v)

/-- Embeds `register_best_model`: builds `model_uri = "runs:/" ++ run_id ++ "/model"`,
registers it under the fixed name `"BestModel"`, and unconditionally
transitions the version it received back to stage `"Production"`.  Returns the
final registry state and the version number received from registration.
There is no branch: no approval gate, no rollback, and the run's metrics are
never consulted. -/
def register_best_model (registry : List ModelVersion) (run_id : String) :
    List ModelVersion × ℕ :=
  let model_uri := "runs:/" ++ run_id ++ "/model"
  let st1 := registerModel registry model_uri "BestModel"
  let version := nextVersion registry "BestModel"
  (transitionStage st1 "BestModel" version "Production", version)

/-! ## `eval_metrics`: sklearn metric semantics over the 2-column target
matrix (`solar_GW`, `wind_GW`); exact values in place of floats -/

/-- First output column (`solar_GW`) of a target/prediction matrix. -/
def col1 (m : List (ℚ × ℚ)) : List ℚ := m.map Prod.fst

/-- Second output column (`wind_GW`) of a target/prediction matrix. -/
def col2 (m : List (ℚ × ℚ)) : List ℚ := m.map Prod.snd

/-- Sum of squared differences of two columns. -/
def sqDiffSum (ys ps : List ℚ) : ℚ :=
  (List.zipWith (fun y p => (y - p) ^ 2) ys ps).sum

/-- Sum of absolute differences of two columns. -/
def absDiffSum (ys ps : List ℚ) : ℚ :=
  (List.zipWith (fun y p => |y - p|) ys ps).sum

/-- Per-column mean squared error. -/
def mseCol (ys ps : List ℚ) : ℚ := sqDiffSum ys ps / (ys.length : ℚ)

/-- Per-column mean absolute error. -/
def maeCol (ys ps : List ℚ) : ℚ := absDiffSum ys ps / (ys.length : ℚ)

/-- Embeds `sklearn.metrics.mean_squared_error` with its default
`multioutput="uniform_average"`: the per-column MSEs, averaged over the two
output columns. -/
def mean_squared_error (actual pred : List (ℚ × ℚ)) : ℚ :=
  (mseCol (col1 actual) (col1 pred) + mseCol (col2 actual) (col2 pred)) / 2

/-- Embeds `sklearn.metrics.mean_absolute_error` with its default uniform average
over the two output columns. -/
def mean_absolute_error (actual pred : List (ℚ × ℚ)) : ℚ :=
  (maeCol (col1 actual) (col1 pred) + maeCol (col2 actual) (col2 pred)) / 2

/-- Mean of a column. -/
def meanList (l : List ℚ) : ℚ := l.sum / (l.length : ℚ)

/-- Per-column coefficient of determination, as `sklearn.metrics.r2_score`
computes it: `1 - SS_res / SS_tot`, with the degenerate constant-column case
(`SS_tot = 0`) scored as 1 when the residual is also 0 and as 0 otherwise. -/
def r2Col (ys ps : List ℚ) : ℚ :=
  let ybar := meanList ys
  let ssRes := sqDiffSum ys ps
  let ssTot := ((ys.map (fun y => (y - ybar) ^ 2)).sum)
  if ssTot = 0 then (if ssRes = 0 then 1 else 0) else 1 - ssRes / ssTot

/-- Embeds `sklearn.metrics.r2_score` with its default
`multioutput="uniform_average"`: per-column R², averaged over the two output
columns. -/
def r2_score (actual pred : List (ℚ × ℚ)) : ℚ :=
  (r2Col (col1 actual) (col1 pred) + r2Col (col2 actual) (col2 pred)) / 2

/-- Embeds `eval_metrics(actual, pred)`:
`rmse = np.sqrt(mean_squared_error(actual, pred))`, `mae`, `r2`. -/
noncomputable def eval_metrics (actual pred : List (ℚ × ℚ)) : ℝ × ℚ × ℚ :=
  (Real.sqrt (mean_squared_error actual pred),
   mean_absolute_error actual pred,
   r2_score actual pred)

/-- Modelled from the spec: the target matrix with "both output columns
jointly", i.e. all `2 n` held-out entries flattened into one column. -/
def flatCols (m : List (ℚ × ℚ)) : List ℚ := col1 m ++ col2 m

/-- Modelled from the spec: the mean squared error taken jointly over the
full held-out target matrix (all `2 n` entries at once). -/
def jointMSE (actual pred : List (ℚ × ℚ)) : ℚ :=
  sqDiffSum (flatCols actual) (flatCols pred) / ((flatCols actual).length : ℚ)

/-- Modelled from the spec: the mean absolute error taken jointly over the
full held-out target matrix. -/
def jointMAE (actual pred : List (ℚ × ℚ)) : ℚ :=
  absDiffSum (flatCols actual) (flatCols pred) / ((flatCols actual).length : ℚ)

/-! ## Totality of the selector's lookups and concrete witness fixtures -/

lemma getRuns_total {store : String → Option MlRun} {ids : List String}
    (hall : ∀ id ∈ ids, ∃ r, store id = some r) :
    ∃ runs, getRuns store ids = some runs := by
  induction ids with
  | nil => exact ⟨[], rfl⟩
  | cons a t ih =>
    obtain ⟨r, hr⟩ := hall a (by simp)
    obtain ⟨rs, hrs⟩ := ih (fun id hid => hall id (List.mem_cons_of_mem _ hid))
    exact ⟨r :: rs, by simp [getRuns, hr, hrs]⟩

lemma getRuns_run_mem {store : String → Option MlRun} {ids : List String}
    {runs : List MlRun} (h : getRuns store ids = some runs) :
    ∀ r ∈ runs, ∃ id ∈ ids, store id = some r := by
  induction ids generalizing runs with
  | nil =>
    simp only [getRuns, Option.some.injEq] at h
    subst h
    intro r hr
    cases hr
  | cons a t ih =>
    intro r hr
    simp only [getRuns] at h
    cases hs : store a with
    | none => rw [hs] at h; cases h
    | some r0 =>
      rw [hs] at h
      cases hrest : getRuns store t with
      | none => rw [hrest] at h; cases h
      | some rs =>
        rw [hrest] at h
        cases h
        rcases List.mem_cons.mp hr with h1 | h1
        · exact ⟨a, by simp, by rw [hs, h1]⟩
        · obtain ⟨id, hid, hsid⟩ := ih hrest r h1
          exact ⟨id, List.mem_cons_of_mem _ hid, hsid⟩

lemma getR2s_total {runs : List MlRun}
    (hall : ∀ r ∈ runs, ∃ q, r.metrics.lookup "r2" = some q) :
    ∃ r2s, getR2s runs = some r2s := by
  induction runs with
  | nil => exact ⟨[], rfl⟩
  | cons r t ih =>
    obtain ⟨q, hq⟩ := hall r (by simp)
    obtain ⟨qs, hqs⟩ := ih (fun x hx => hall x (List.mem_cons_of_mem _ hx))
    exact ⟨q :: qs, by simp [getR2s, hq, hqs]⟩

/-- A store built from an association list whose values carry their own key
as `run_id` is coherent: `get_run(id)` returns a run whose id is `id`. -/
lemma lookup_store_coherent {l : List (String × MlRun)}
    (hl : ∀ p ∈ l, (p.2).run_id = p.1) :
    ∀ id r, l.lookup id = some r → r.run_id = id := by
  induction l with
  | nil => intro id r h; simp at h
  | cons p t ih =>
    intro id r h
    rcases p with ⟨k, v⟩
    by_cases hk : id = k
    · subst hk
      simp [List.lookup] at h
      subst h
      exact hl (id, v) (by simp)
    · simp only [List.lookup, show (id == k) = false from beq_eq_false_iff_ne.mpr hk] at h
      exact ih (fun q hq => hl q (List.mem_cons_of_mem _ hq)) id r h

/-- Witness store: runs `"A"` and `"B"` with equal `"r2"` value 1. -/
def wStoreTie : String → Option MlRun := fun id =>
  [("A", (⟨"A", [], [("r2", 1)]⟩ : MlRun)),
   ("B", (⟨"B", [], [("r2", 1)]⟩ : MlRun))].lookup id

/-- Witness store: run `"A"` with `"r2"` 1, run `"B"` with `"r2"` 2. -/
def wStoreGap : String → Option MlRun := fun id =>
  [("A", (⟨"A", [], [("r2", 1)]⟩ : MlRun)),
   ("B", (⟨"B", [], [("r2", 2)]⟩ : MlRun))].lookup id

/-! ## Claim theorems -/

/-- C1: for every non-empty candidate list of runs each carrying an `"r2"`
metric, `get_best_model` publishes under `"best_model_run_id"` the id of a
candidate whose R² is greater than or equal to the R² of every other
candidate in the same selection set. -/
theorem selector_publishes_max_r2 {store : String → Option MlRun}
    {pulled : List (List String)}
    (hstore : ∀ id r, store id = some r → r.run_id = id)
    (hne : flattenIds pulled ≠ [])
    (hall : ∀ id ∈ flattenIds pulled,
      ∃ r q, store id = some r ∧ r.metrics.lookup "r2" = some q) :
    ∃ b, get_best_model store pulled = some b ∧ b ∈ flattenIds pulled ∧
      ∃ r2b, r2Of store b = some r2b ∧
        ∀ id ∈ flattenIds pulled, ∀ q, r2Of store id = some q → q ≤ r2b := by
  obtain ⟨runs, hruns⟩ := getRuns_total
    (fun id hid => (hall id hid).elim (fun r hr => hr.elim (fun q hq => ⟨r, hq.1⟩)))
  have hrall : ∀ r ∈ runs, ∃ q, r.metrics.lookup "r2" = some q := by
    intro r hr
    obtain ⟨id, hid, hsid⟩ := getRuns_run_mem hruns r hr
    obtain ⟨r0, q, h1, h2⟩ := hall id hid
    rw [h1] at hsid
    cases hsid
    exact ⟨q, h2⟩
  obtain ⟨r2s, hr2s⟩ := getR2s_total hrall
  have hrunsne : runs ≠ [] := by
    intro h0
    have hlen := getRuns_length hruns
    rw [h0] at hlen
    simp only [List.length_nil] at hlen
    exact hne (List.length_eq_zero.mp hlen.symm)
  have hsucc : get_best_model store pulled =
      some ((runs.getD (npArgmax r2s) ⟨"", [], []⟩).run_id) := by
    unfold get_best_model
    rw [hruns]
    dsimp only
    rw [hr2s]
    dsimp only
    cases hrc : runs with
    | nil => exact absurd hrc hrunsne
    | cons r0 rt => dsimp only
  exact ⟨_, hsucc, get_best_model_spec hstore hsucc⟩

/-- Witness for C1 at a concrete store and candidate lists. -/
theorem selector_publishes_max_r2_witness :
    (∀ id r, wStoreGap id = some r → r.run_id = id) ∧
    flattenIds [["A"], ["B"]] ≠ [] ∧
    (∀ id ∈ flattenIds [["A"], ["B"]],
      ∃ r q, wStoreGap id = some r ∧ r.metrics.lookup "r2" = some q) ∧
    (∃ b, get_best_model wStoreGap [["A"], ["B"]] = some b ∧
      b ∈ flattenIds [["A"], ["B"]] ∧
      ∃ r2b, r2Of wStoreGap b = some r2b ∧
        ∀ id ∈ flattenIds [["A"], ["B"]], ∀ q,
          r2Of wStoreGap id = some q → q ≤ r2b) := by
  have hst : ∀ id r, wStoreGap id = some r → r.run_id = id :=
    lookup_store_coherent (by decide)
  have hne : flattenIds [["A"], ["B"]] ≠ [] := by decide
  have hall : ∀ id ∈ flattenIds [["A"], ["B"]],
      ∃ r q, wStoreGap id = some r ∧ r.metrics.lookup "r2" = some q := by
    intro id hid
    simp only [flattenIds, List.flatten, List.mem_cons, List.not_mem_nil,
      or_false, List.mem_singleton, List.append_nil, List.mem_append] at hid
    rcases hid with h | h <;> subst h
    · exact ⟨_, _, rfl, rfl⟩
    · exact ⟨_, _, rfl, rfl⟩
  exact ⟨hst, hne, hall, selector_publishes_max_r2 hst hne hall⟩

/-- C3 counterexample: with two candidates sharing the maximal R² (both 1),
the published run_id depends on the order of the flattened candidate list:
`["A", "B"]` publishes `"A"` while the permuted `["B", "A"]` publishes
`"B"`. -/
theorem selector_order_dependent_on_tie :
    (flattenIds [["B"], ["A"]]).Perm (flattenIds [["A"], ["B"]]) ∧
    get_best_model wStoreTie [["A"], ["B"]] = some "A" ∧
    get_best_model wStoreTie [["B"], ["A"]] = some "B" ∧
    ("A" : String) ≠ "B" := by
  refine ⟨by decide, by decide, by decide, by decide⟩

/-- C3 (amended): provided no two distinct candidate run_ids carry the same
R² value, the published run_id is independent of the order of the flattened
candidate list: any permutation yields the same winner. -/
theorem selector_order_independent_without_ties {store : String → Option MlRun}
    {pulled pulled' : List (List String)} {b b' : String}
    (hstore : ∀ id r, store id = some r → r.run_id = id)
    (hperm : (flattenIds pulled').Perm (flattenIds pulled))
    (huniq : ∀ x ∈ flattenIds pulled, ∀ y ∈ flattenIds pulled,
      r2Of store x = r2Of store y → x = y)
    (h1 : get_best_model store pulled = some b)
    (h2 : get_best_model store pulled' = some b') :
    b' = b := by
  obtain ⟨hbmem, r2b, hr2b, hmax⟩ := get_best_model_spec hstore h1
  obtain ⟨hbmem', r2b', hr2b', hmax'⟩ := get_best_model_spec hstore h2
  have hb'in : b' ∈ flattenIds pulled := hperm.mem_iff.mp hbmem'
  have hbin' : b ∈ flattenIds pulled' := hperm.mem_iff.mpr hbmem
  have hle1 : r2b' ≤ r2b := hmax b' hb'in r2b' hr2b'
  have hle2 : r2b ≤ r2b' := by
    refine hmax' b hbin' r2b hr2b
  have heq : r2b = r2b' := le_antisymm hle2 hle1
  refine huniq b' hb'in b hbmem ?_
  rw [hr2b, hr2b', heq]

/-- Witness for the amended C3 at a concrete tie-free store. -/
theorem selector_order_independent_without_ties_witness :
    (∀ id r, wStoreGap id = some r → r.run_id = id) ∧
    (flattenIds [["B"], ["A"]]).Perm (flattenIds [["A"], ["B"]]) ∧
    (∀ x ∈ flattenIds [["A"], ["B"]], ∀ y ∈ flattenIds [["A"], ["B"]],
      r2Of wStoreGap x = r2Of wStoreGap y → x = y) ∧
    get_best_model wStoreGap [["A"], ["B"]] = some "B" ∧
    get_best_model wStoreGap [["B"], ["A"]] = some "B" ∧
    ("B" : String) = "B" := by
  have hst : ∀ id r, wStoreGap id = some r → r.run_id = id :=
    lookup_store_coherent (by decide)
  have hperm : (flattenIds [["B"], ["A"]]).Perm (flattenIds [["A"], ["B"]]) := by decide
  have huniq : ∀ x ∈ flattenIds [["A"], ["B"]], ∀ y ∈ flattenIds [["A"], ["B"]],
      r2Of wStoreGap x = r2Of wStoreGap y → x = y := by decide
  have h1 : get_best_model wStoreGap [["A"], ["B"]] = some "B" := by decide
  have h2 : get_best_model wStoreGap [["B"], ["A"]] = some "B" := by decide
  exact ⟨hst, hperm, huniq, h1, h2,
    selector_order_independent_without_ties hst hperm huniq h1 h2⟩

/-- C4: when several candidates share the maximum R², the selector returns
the first maximal element in fetch order: the published id sits at an index
`i` of the flattened candidate list whose R² dominates all fetched R² values,
while every index before `i` carries a strictly smaller R². -/
theorem selector_tie_breaks_first_in_fetch_order {store : String → Option MlRun}
    {pulled : List (List String)} {b : String}
    (hstore : ∀ id r, store id = some r → r.run_id = id)
    (hres : get_best_model store pulled = some b) :
    ∃ runs r2s i, getRuns store (flattenIds pulled) = some runs ∧
      getR2s runs = some r2s ∧ i < (flattenIds pulled).length ∧
      b = (flattenIds pulled).getD i "" ∧
      (∀ q ∈ r2s, q ≤ r2s.getD i 0) ∧
      (∀ j, j < i → r2s.getD j 0 < r2s.getD i 0) := by
  obtain ⟨runs, r2s, hruns, hr2s, hne, hb⟩ := get_best_model_eq hres
  have hlen1 : runs.length = (flattenIds pulled).length := getRuns_length hruns
  have hlen2 : r2s.length = runs.length := getR2s_length hr2s
  have hr2ne : r2s ≠ [] := by
    intro h0
    rw [h0] at hlen2
    simp only [List.length_nil] at hlen2
    exact hne (List.length_eq_zero.mp hlen2.symm)
  have hi : npArgmax r2s < r2s.length := npArgmax_lt_length hr2ne
  refine ⟨runs, r2s, npArgmax r2s, hruns, hr2s, by omega, ?_, ?_, ?_⟩
  · have hstorei : store ((flattenIds pulled).getD (npArgmax r2s) "") =
        some (runs.getD (npArgmax r2s) ⟨"", [], []⟩) :=
      getRuns_getD hruns (npArgmax r2s) (by omega)
    rw [hb]
    exact hstore _ _ hstorei
  · intro q hq
    rw [getD_npArgmax hr2ne]
    exact le_listMax hq
  · intro j hj
    rw [getD_npArgmax hr2ne]
    exact getD_lt_listMax_of_lt_npArgmax hj

/-- Witness for C4 at a concrete tied store: `"A"` and `"B"` both have R² 1
and `"A"`, first in fetch order, is published. -/
theorem selector_tie_breaks_first_witness :
    (∀ id r, wStoreTie id = some r → r.run_id = id) ∧
    get_best_model wStoreTie [["A"], ["B"]] = some "A" ∧
    (∃ runs r2s i, getRuns wStoreTie (flattenIds [["A"], ["B"]]) = some runs ∧
      getR2s runs = some r2s ∧ i < (flattenIds [["A"], ["B"]]).length ∧
      "A" = (flattenIds [["A"], ["B"]]).getD i "" ∧
      (∀ q ∈ r2s, q ≤ r2s.getD i 0) ∧
      (∀ j, j < i → r2s.getD j 0 < r2s.getD i 0)) := by
  have hst : ∀ id r, wStoreTie id = some r → r.run_id = id :=
    lookup_store_coherent (by decide)
  have hres : get_best_model wStoreTie [["A"], ["B"]] = some "A" := by decide
  exact ⟨hst, hres, selector_tie_breaks_first_in_fetch_order hst hres⟩

/-- C7: the selector has no local error handling: an empty candidate list, or
any candidate run_id missing from the tracking store, makes `get_best_model`
abort (`none`) and publish no `"best_model_run_id"` message. -/
theorem selector_aborts_on_missing_or_empty (store : String → Option MlRun)
    (pulled : List (List String)) :
    (flattenIds pulled = [] → get_best_model store pulled = none) ∧
    (∀ id ∈ flattenIds pulled, store id = none → get_best_model store pulled = none) := by
  constructor
  · intro h
    unfold get_best_model
    rw [h]
    rfl
  · intro id hid hnone
    unfold get_best_model
    rw [getRuns_none_of_missing hid hnone]

/-- Witness for C7: an empty pull and a candidate id `"C"` absent from the
store both abort the selector. -/
theorem selector_aborts_witness :
    flattenIds ([] : List (List String)) = [] ∧
    get_best_model wStoreTie [] = none ∧
    ("C" ∈ flattenIds [["A"], ["C"]] ∧ wStoreTie "C" = none ∧
      get_best_model wStoreTie [["A"], ["C"]] = none) := by
  refine ⟨rfl, (selector_aborts_on_missing_or_empty wStoreTie []).1 rfl,
    by decide, rfl,
    (selector_aborts_on_missing_or_empty wStoreTie [["A"], ["C"]]).2 "C" (by decide) rfl⟩

/-- Full characterization of a successful `make_rf` loop: all four grid points
were trained, in outer-`n_estimators` / inner-`max_depth` order, and the
tracked runs are exactly the four records with both hyperparameters logged as
params and the three metrics logged per run. -/
lemma make_rf_runs_spec {freshId : ℕ → String}
    {tryTrain : ℕ → ℕ → Option (ℚ × ℚ × ℚ)} {rs : List MlRun}
    (hres : make_rf_runs freshId tryTrain = some rs) :
    ∃ m1 m2 m3 m4, tryTrain 4 4 = some m1 ∧ tryTrain 4 10 = some m2 ∧
      tryTrain 25 4 = some m3 ∧ tryTrain 25 10 = some m4 ∧
      rs = [⟨freshId 0, [("n_estimators", 4), ("max_depth", 4)],
              [("rmse", m1.1), ("mae", m1.2.1), ("r2", m1.2.2)]⟩,
            ⟨freshId 1, [("n_estimators", 4), ("max_depth", 10)],
              [("rmse", m2.1), ("mae", m2.2.1), ("r2", m2.2.2)]⟩,
            ⟨freshId 2, [("n_estimators", 25), ("max_depth", 4)],
              [("rmse", m3.1), ("mae", m3.2.1), ("r2", m3.2.2)]⟩,
            ⟨freshId 3, [("n_estimators", 25), ("max_depth", 10)],
              [("rmse", m4.1), ("mae", m4.2.1), ("r2", m4.2.2)]⟩] := by
  unfold make_rf_runs at hres
  simp only [n_estimators_grid, max_depth_grid, List.foldl] at hres
  cases h1 : tryTrain 4 4 with
  | none => rw [h1] at hres; simp at hres
  | some m1 =>
    rw [h1] at hres
    cases h2 : tryTrain 4 10 with
    | none => rw [h2] at hres; simp at hres
    | some m2 =>
      rw [h2] at hres
      cases h3 : tryTrain 25 4 with
      | none => rw [h3] at hres; simp at hres
      | some m3 =>
        rw [h3] at hres
        cases h4 : tryTrain 25 10 with
        | none => rw [h4] at hres; simp at hres
        | some m4 =>
          rw [h4] at hres
          simp only [List.nil_append, List.cons_append, List.length_nil,
            List.length_cons, Option.some.injEq] at hres
          exact ⟨m1, m2, m3, m4, rfl, rfl, rfl, rfl, hres.symm⟩

/-- C2: a successful `make_rf` produces exactly 4 runs, one per
`(n_estimators, max_depth)` pair in `{4,25} × {4,10}`, created in the
deterministic order of the nested loops (outer `n_estimators`, inner
`max_depth`), each recording both hyperparameters as params. -/
theorem rf_trains_full_grid {freshId : ℕ → String}
    {tryTrain : ℕ → ℕ → Option (ℚ × ℚ × ℚ)} {rs : List MlRun}
    (hres : make_rf_runs freshId tryTrain = some rs) :
    rs.length = 4 ∧
    rs.map (fun r => r.params) =
      [[("n_estimators", 4), ("max_depth", 4)],
       [("n_estimators", 4), ("max_depth", 10)],
       [("n_estimators", 25), ("max_depth", 4)],
       [("n_estimators", 25), ("max_depth", 10)]] := by
  obtain ⟨m1, m2, m3, m4, h1, h2, h3, h4, hrs⟩ := make_rf_runs_spec hres
  subst hrs
  exact ⟨rfl, rfl⟩

/-- Witness fixtures for the trainer theorems. -/
def wFreshId : ℕ → String := fun k => "run" ++ toString k

/-- A training oracle that always succeeds with zero metrics. -/
def wTrainOk : ℕ → ℕ → Option (ℚ × ℚ × ℚ) := fun _ _ => some (0, 0, 0)

/-- A training oracle whose last grid iteration raises. -/
def wTrainFailLast : ℕ → ℕ → Option (ℚ × ℚ × ℚ) := fun n d =>
  if n = 25 ∧ d = 10 then none else some (0, 0, 0)

/-- The four runs produced by `make_rf` under `wFreshId`/`wTrainOk`. -/
def wRf4 : List MlRun :=
  [⟨"run0", [("n_estimators", 4), ("max_depth", 4)],
      [("rmse", 0), ("mae", 0), ("r2", 0)]⟩,
   ⟨"run1", [("n_estimators", 4), ("max_depth", 10)],
      [("rmse", 0), ("mae", 0), ("r2", 0)]⟩,
   ⟨"run2", [("n_estimators", 25), ("max_depth", 4)],
      [("rmse", 0), ("mae", 0), ("r2", 0)]⟩,
   ⟨"run3", [("n_estimators", 25), ("max_depth", 10)],
      [("rmse", 0), ("mae", 0), ("r2", 0)]⟩]

/-- Witness for C2 at a concrete id supply and training oracle. -/
theorem rf_trains_full_grid_witness :
    make_rf_runs wFreshId wTrainOk = some wRf4 ∧
    (wRf4.length = 4 ∧
      wRf4.map (fun r => r.params) =
        [[("n_estimators", 4), ("max_depth", 4)],
         [("n_estimators", 4), ("max_depth", 10)],
         [("n_estimators", 25), ("max_depth", 4)],
         [("n_estimators", 25), ("max_depth", 10)]]) := by
  have h : make_rf_runs wFreshId wTrainOk = some wRf4 := by decide
  exact ⟨h, rf_trains_full_grid h⟩

/-- C10: `make_rf` pushes its `"run_id"` message only after all four
iterations completed; if the training of any grid point raises, no message at
all is pushed, so downstream steps never observe a partial list. -/
theorem rf_pushes_nothing_on_any_failure {freshId : ℕ → String}
    {tryTrain : ℕ → ℕ → Option (ℚ × ℚ × ℚ)} {n d : ℕ}
    (hn : n ∈ n_estimators_grid) (hd : d ∈ max_depth_grid)
    (hfail : tryTrain n d = none) :
    make_rf_push freshId tryTrain = none := by
  have hn2 : n = 4 ∨ n = 25 := by simpa [n_estimators_grid] using hn
  have hd2 : d = 4 ∨ d = 10 := by simpa [max_depth_grid] using hd
  unfold make_rf_push make_rf_runs
  simp only [n_estimators_grid, max_depth_grid, List.foldl]
  rcases hn2 with h | h <;> rcases hd2 with h2 | h2 <;> subst h <;> subst h2 <;>
    cases ha : tryTrain 4 4 <;> cases hb : tryTrain 4 10 <;>
    cases hc : tryTrain 25 4 <;> cases he : tryTrain 25 10 <;>
    simp_all

/-- Witness for C10: the last grid iteration raising suppresses the push. -/
theorem rf_pushes_nothing_witness :
    (25 ∈ n_estimators_grid ∧ 10 ∈ max_depth_grid ∧
      wTrainFailLast 25 10 = none) ∧
    make_rf_push wFreshId wTrainFailLast = none := by
  refine ⟨⟨by decide, by decide, by decide⟩,
    @rf_pushes_nothing_on_any_failure wFreshId wTrainFailLast 25 10
      (by decide) (by decide) (by decide)⟩

/-- C5: `make_lr` pushes a one-element list containing exactly its own run's
id, a successful `make_rf` pushes the list of its 4 run ids under the same
key, and the selector's flattening of these two messages yields exactly 5
candidate run_ids (1 linear + 4 forest). -/
theorem pipeline_five_candidates {freshId : ℕ → String}
    {tryTrain : ℕ → ℕ → Option (ℚ × ℚ × ℚ)} {l : List String}
    (rid : String)
    (hrf : make_rf_push freshId tryTrain = some l) :
    make_lr_push rid = [rid] ∧ (make_lr_push rid).length = 1 ∧ l.length = 4 ∧
    (flattenIds [make_lr_push rid, l]).length = 5 := by
  obtain ⟨rs, hrs, hmap⟩ := Option.map_eq_some'.mp hrf
  obtain ⟨m1, m2, m3, m4, h1, h2, h3, h4, hrseq⟩ := make_rf_runs_spec hrs
  have hlen : l.length = 4 := by
    rw [← hmap, hrseq]
    rfl
  refine ⟨rfl, rfl, hlen, ?_⟩
  simp [flattenIds, make_lr_push, hlen]

/-- Witness for C5 at the concrete trainer fixtures. -/
theorem pipeline_five_candidates_witness :
    make_rf_push wFreshId wTrainOk = some ["run0", "run1", "run2", "run3"] ∧
    (make_lr_push "lr0" = ["lr0"] ∧ (make_lr_push "lr0").length = 1 ∧
      (["run0", "run1", "run2", "run3"] : List String).length = 4 ∧
      (flattenIds [make_lr_push "lr0", ["run0", "run1", "run2", "run3"]]).length = 5) := by
  have h : make_rf_push wFreshId wTrainOk = some ["run0", "run1", "run2", "run3"] := by
    decide
  exact ⟨h, pipeline_five_candidates "lr0" h⟩

/-- C6: `register_best_model` registers the selected run's model artifact
(URI `runs:/<id>/model`) under the fixed name `"BestModel"` and then
unconditionally transitions the version it received back to stage
`"Production"`: for every prior registry state and every selected run id —
with no approval gate and no condition on any metric — the resulting registry
contains the new `"BestModel"` version, sourced from that URI, in stage
`"Production"`. -/
theorem promoter_registers_and_promotes_unconditionally
    (registry : List ModelVersion) (run_id : String) :
    (register_best_model registry run_id).2 = nextVersion registry "BestModel" ∧
    (⟨"BestModel", nextVersion registry "BestModel", "Production",
        "runs:/" ++ run_id ++ "/model"⟩ : ModelVersion) ∈
      (register_best_model registry run_id).1 := by
  constructor
  · rfl
  · show _ ∈ transitionStage (registerModel registry _ "BestModel") "BestModel"
      (nextVersion registry "BestModel") "Production"
    unfold transitionStage registerModel
    rw [List.map_append]
    apply List.mem_append_right
    simp

/-! ## Lemmas about the metric computations -/

lemma sqDiffSum_nonneg (ys ps : List ℚ) : 0 ≤ sqDiffSum ys ps := by
  unfold sqDiffSum
  induction ys generalizing ps with
  | nil => simp
  | cons y t ih =>
    cases ps with
    | nil => simp
    | cons p pt =>
      simp only [List.zipWith_cons_cons, List.sum_cons]
      exact add_nonneg (sq_nonneg _) (ih pt)

lemma absDiffSum_nonneg (ys ps : List ℚ) : 0 ≤ absDiffSum ys ps := by
  unfold absDiffSum
  induction ys generalizing ps with
  | nil => simp
  | cons y t ih =>
    cases ps with
    | nil => simp
    | cons p pt =>
      simp only [List.zipWith_cons_cons, List.sum_cons]
      exact add_nonneg (abs_nonneg _) (ih pt)

lemma sum_sq_dev_nonneg (l : List ℚ) (c : ℚ) :
    0 ≤ (l.map (fun y => (y - c) ^ 2)).sum := by
  refine List.sum_nonneg ?_
  intro x hx
  obtain ⟨y, hy, hxy⟩ := List.mem_map.mp hx
  rw [← hxy]
  exact sq_nonneg _

lemma r2Col_le_one (ys ps : List ℚ) : r2Col ys ps ≤ 1 := by
  simp only [r2Col]
  split_ifs with h1 h2
  · exact le_refl 1
  · norm_num
  · have htot : 0 < (ys.map (fun y => (y - meanList ys) ^ 2)).sum :=
      lt_of_le_of_ne (sum_sq_dev_nonneg ys (meanList ys)) (Ne.symm h1)
    have hres : 0 ≤ sqDiffSum ys ps := sqDiffSum_nonneg ys ps
    have hq : 0 ≤ sqDiffSum ys ps / (ys.map (fun y => (y - meanList ys) ^ 2)).sum :=
      div_nonneg hres (le_of_lt htot)
    linarith

lemma sqDiffSum_append {a b c d : List ℚ} (h : a.length = c.length) :
    sqDiffSum (a ++ b) (c ++ d) = sqDiffSum a c + sqDiffSum b d := by
  unfold sqDiffSum
  rw [List.zipWith_append _ _ _ _ _ h, List.sum_append]

lemma absDiffSum_append {a b c d : List ℚ} (h : a.length = c.length) :
    absDiffSum (a ++ b) (c ++ d) = absDiffSum a c + absDiffSum b d := by
  unfold absDiffSum
  rw [List.zipWith_append _ _ _ _ _ h, List.sum_append]

/-- C9: for every actual/predicted input pair, the metrics returned by
`eval_metrics` satisfy RMSE ≥ 0 and MAE ≥ 0, and R² ≤ 1 (R² may be negative
for poor fits, but never exceeds 1). -/
theorem eval_metrics_bounds (actual pred : List (ℚ × ℚ)) :
    0 ≤ (eval_metrics actual pred).1 ∧
    0 ≤ (eval_metrics actual pred).2.1 ∧
    (eval_metrics actual pred).2.2 ≤ 1 := by
  refine ⟨Real.sqrt_nonneg _, ?_, ?_⟩
  · show (0 : ℚ) ≤ mean_absolute_error actual pred
    unfold mean_absolute_error maeCol
    have h1 := absDiffSum_nonneg (col1 actual) (col1 pred)
    have h2 := absDiffSum_nonneg (col2 actual) (col2 pred)
    have hn1 : (0 : ℚ) ≤ ((col1 actual).length : ℚ) := Nat.cast_nonneg _
    have hn2 : (0 : ℚ) ≤ ((col2 actual).length : ℚ) := Nat.cast_nonneg _
    have := add_nonneg (div_nonneg h1 hn1) (div_nonneg h2 hn2)
    linarith
  · show r2_score actual pred ≤ 1
    unfold r2_score
    have h1 := r2Col_le_one (col1 actual) (col1 pred)
    have h2 := r2Col_le_one (col2 actual) (col2 pred)
    linarith

/-- C8: the RMSE logged by the trainers is the square root of the mean
squared error of predictions against held-out targets, and each metric is
one scalar over the full 2-column held-out matrix: the MSE and MAE equal the
joint mean over all `2 n` flattened entries, and the R² is the
uniform average over the two output columns (the library default). -/
theorem rmse_is_sqrt_of_joint_mse {actual pred : List (ℚ × ℚ)}
    (hne : actual ≠ []) (hlen : actual.length = pred.length) :
    (eval_metrics actual pred).1 = Real.sqrt (mean_squared_error actual pred) ∧
    mean_squared_error actual pred = jointMSE actual pred ∧
    mean_absolute_error actual pred = jointMAE actual pred ∧
    (eval_metrics actual pred).2.2 =
      (r2Col (col1 actual) (col1 pred) + r2Col (col2 actual) (col2 pred)) / 2 := by
  have hn0 : actual.length ≠ 0 := fun h0 => hne (List.length_eq_zero.mp h0)
  have hn : ((actual.length : ℚ)) ≠ 0 := Nat.cast_ne_zero.mpr hn0
  refine ⟨rfl, ?_, ?_, rfl⟩
  · unfold mean_squared_error jointMSE mseCol flatCols
    rw [sqDiffSum_append (by simp [col1, hlen])]
    simp only [col1, col2, List.length_append, List.length_map]
    push_cast
    rw [div_add_div_same, div_div, ← two_mul, mul_comm]
  · unfold mean_absolute_error jointMAE maeCol flatCols
    rw [absDiffSum_append (by simp [col1, hlen])]
    simp only [col1, col2, List.length_append, List.length_map]
    push_cast
    rw [div_add_div_same, div_div, ← two_mul, mul_comm]

/-- Witness for C8 at a concrete two-row target matrix. -/
theorem rmse_is_sqrt_of_joint_mse_witness :
    ([((1 : ℚ), (2 : ℚ)), (3, 4)] ≠ []) ∧
    ([((1 : ℚ), (2 : ℚ)), (3, 4)].length = [((1 : ℚ), (2 : ℚ)), (3, 5)].length) ∧
    ((eval_metrics [((1 : ℚ), 2), (3, 4)] [(1, 2), (3, 5)]).1 =
        Real.sqrt (mean_squared_error [((1 : ℚ), 2), (3, 4)] [(1, 2), (3, 5)]) ∧
      mean_squared_error [((1 : ℚ), 2), (3, 4)] [(1, 2), (3, 5)] =
        jointMSE [((1 : ℚ), 2), (3, 4)] [(1, 2), (3, 5)] ∧
      mean_absolute_error [((1 : ℚ), 2), (3, 4)] [(1, 2), (3, 5)] =
        jointMAE [((1 : ℚ), 2), (3, 4)] [(1, 2), (3, 5)] ∧
      (eval_metrics [((1 : ℚ), 2), (3, 4)] [(1, 2), (3, 5)]).2.2 =
        (r2Col (col1 [((1 : ℚ), 2), (3, 4)]) (col1 [((1 : ℚ), 2), (3, 5)]) +
          r2Col (col2 [((1 : ℚ), 2), (3, 4)]) (col2 [((1 : ℚ), 2), (3, 5)])) / 2) := by
  refine ⟨by decide, by decide, rmse_is_sqrt_of_joint_mse (by decide) (by decide)⟩
